import Mathlib

/-!
Verification of the log-pipeline query-and-indexing engine.

Shallow embedding of the Go sources:
* `internal/query/query.go` — `Filters`, `Parse`, `MergeFilters`, `MatchesFilters`,
  `tokenize`, `splitOnOR`, `splitToken`, `trimQuotes`, `parseInList`;
* `internal/index` — `Index`, `SnapshotIndex`, `Build`, `ToSnapshotIndex`,
  `FromSnapshotIndex`, `FilterWithFilters`, `collectFromHourBuckets`, `hourBucket`;
* `internal/shard` — `DaysInRange`;
* `internal/engine` — `LoadEntries` (snapshot branch), `QueryEntries`, `applyRetention`.

Modelling conventions:
* Go strings are `List Char`; Go's ASCII-oriented `strings.ToUpper` / `ToLower` /
  `EqualFold` are modelled with `Char.toUpper` / `Char.toLower` (case folding by
  upper-casing, as Go's functions behave on ASCII level tokens and query text).
* `time.Time` is an integer count of UTC seconds; `t.IsZero()` is `t = 0`,
  `a.Before(b)` is `a < b`.  The hour bucket `YYYY-MM-DDTHH` and the day key
  `YYYY-MM-DD` are fixed-width, zero-padded and therefore order- and
  equality-isomorphic to the integer hour index `t / 3600` and day index
  `t / 86400` (floor division); buckets are modelled by those integers.
* Go's `map[K][]V` with `nil` default is a function `K → List V` returning `[]`;
  `m[k] = append(m[k], v)` is `appendAt`.  Map iteration order is observable in
  the sources only through `Hours`, which Go sorts after collecting the keys;
  the sorted distinct key list is computed directly.
* The OR de-duplication key `RFC3339Nano(ts) + "|" + level + "|" + message` is
  injective on the modelled entries, so it is modelled by the triple itself.
* File and clock I/O (`snapshot.Load`, `store.LoadJSONL`, `time.Now`,
  `time.ParseDuration`, `time.Parse`) are abstracted into parameters holding
  the loaded/parsed values.
-/

/-- Go strings, modelled as character lists. -/
abbrev Str := List Char

def spaceChar : Char := Char.ofNat 32

def tabChar : Char := Char.ofNat 9

def nlChar : Char := Char.ofNat 10

def crChar : Char := Char.ofNat 13

def dquoteChar : Char := Char.ofNat 34

def squoteChar : Char := Char.ofNat 39

def tildeChar : Char := Char.ofNat 126

def eqChar : Char := Char.ofNat 61

def lparenChar : Char := Char.ofNat 40

def rparenChar : Char := Char.ofNat 41

def commaChar : Char := Char.ofNat 44

/-- Source `strings.ToUpper` on ASCII text. -/
def toUpperStr (s : Str) : Str := s.map Char.toUpper

/-- Source `strings.ToLower` on ASCII text. -/
def toLowerStr (s : Str) : Str := s.map Char.toLower

/-- Source `strings.EqualFold` on ASCII text: equality after case folding. -/
def equalFold (a b : Str) : Bool := decide (toUpperStr a = toUpperStr b)

/-- Source `strings.Contains hay needle`: some position of `hay` starts with `needle`. -/
def containsSub (hay needle : Str) : Bool :=
  if needle.isPrefixOf hay then true
  else
    match hay with
    | [] => false
    | _ :: t => containsSub t needle

/-- Source `strings.Index hay pat` (found case), as an option; scans left to right. -/
def idxOfSub (pat : Str) : Str → Nat → Option Nat
  | [], i => if pat.isPrefixOf ([] : Str) then some i else none
  | c :: t, i => if pat.isPrefixOf (c :: t) then some i else idxOfSub pat t (i + 1)

def isWsChar (c : Char) : Bool :=
  c = spaceChar || c = tabChar || c = nlChar || c = crChar

/-- Source `strings.TrimSpace` (ASCII whitespace). -/
def trimSpace (s : Str) : Str :=
  ((s.dropWhile isWsChar).reverse.dropWhile isWsChar).reverse

/-- A log entry: `types.LogEntry{Timestamp, Level, Message}`. -/
structure LogEntry where
  timestamp : Int
  level : Str
  message : Str
deriving DecidableEq, Repr

/-- The OR de-duplication key from `FilterWithFilters`:
`e.Timestamp.Format(RFC3339Nano) + "|" + e.Level + "|" + e.Message`, modelled by
the triple itself (the formatting is injective on modelled timestamps). -/
def entryKey (e : LogEntry) : Int × Str × Str := (e.timestamp, e.level, e.message)

/-- Source `query.Filters`: the one filter type used for both AND-groups and OR-groups
(`Level`, `Search`, `After`, `Before`, `Or`, `LevelIn`). -/
inductive Filters where
  | mk (level : Str) (search : Str) (afterT : Int) (beforeT : Int)
      (orL : List Filters) (levelIn : List Str) : Filters
deriving Repr

def Filters.level : Filters → Str | .mk l _ _ _ _ _ => l

def Filters.search : Filters → Str | .mk _ s _ _ _ _ => s

def Filters.afterT : Filters → Int | .mk _ _ a _ _ _ => a

def Filters.beforeT : Filters → Int | .mk _ _ _ b _ _ => b

def Filters.orL : Filters → List Filters | .mk _ _ _ _ o _ => o

def Filters.levelIn : Filters → List Str | .mk _ _ _ _ _ li => li

/-- The all-unset `query.Filters{}` value. -/
def emptyFilters : Filters := .mk [] [] 0 0 [] []

/-- Source `query.isEmptyFilters`. -/
def isEmptyFilters (f : Filters) : Bool :=
  decide (f.level = []) && decide (f.search = []) && decide (f.afterT = 0) &&
  decide (f.beforeT = 0) && decide (f.levelIn = []) && decide (f.orL.length = 0)

mutual

/-- Source `query.MatchesFilters` (query.go): OR-list short-circuit, then the AND
conditions, each early `return false` turned into a conjunct. -/
def MatchesFilters (e : LogEntry) : Filters → Bool
  | .mk level searchS afterT beforeT orL levelIn =>
    if orL.length > 0 then matchesAnyOr e orL
    else
      (decide (levelIn = []) || levelIn.any (fun lvl => equalFold e.level lvl)) &&
      (decide (level = []) || equalFold e.level level) &&
      (decide (afterT = 0) || decide (afterT ≤ e.timestamp)) &&
      (decide (beforeT = 0) || decide (e.timestamp < beforeT)) &&
      (decide (searchS = []) ||
        containsSub (toLowerStr e.message) (toLowerStr searchS))

/-- The `for _, opt := range f.Or { if MatchesFilters(e, opt) ... }` loop. -/
def matchesAnyOr (e : LogEntry) : List Filters → Bool
  | [] => false
  | f :: rest => MatchesFilters e f || matchesAnyOr e rest

end

def setLevel : Filters → Str → Filters | .mk _ s a b o li, l => .mk l s a b o li

def setSearch : Filters → Str → Filters | .mk l _ a b o li, s => .mk l s a b o li

def setAfter : Filters → Int → Filters | .mk l s _ b o li, a => .mk l s a b o li

def setBefore : Filters → Int → Filters | .mk l s a _ o li, b => .mk l s a b o li

def setLevelIn : Filters → List Str → Filters | .mk l s a b o _, li => .mk l s a b o li

/-- The `if !extra.After.IsZero() { ... }` block of `MergeFilters`: keep the
later (larger) of the two lower bounds, treating zero as unset. -/
def mergeAfterStep (m3 : Filters) (ea : Int) : Filters :=
  if ea ≠ 0 then
    if m3.afterT ≠ 0 ∧ m3.afterT < ea then setAfter m3 ea
    else if m3.afterT = 0 then setAfter m3 ea
    else m3
  else m3

/-- The `if !extra.Before.IsZero() { ... }` block of `MergeFilters`: keep the
earlier (smaller) of the two upper bounds, treating zero as unset. -/
def mergeBeforeStep (m4 : Filters) (eb : Int) : Filters :=
  if eb ≠ 0 then
    if m4.beforeT ≠ 0 ∧ eb < m4.beforeT then setBefore m4 eb
    else if m4.beforeT = 0 then setBefore m4 eb
    else m4
  else m4

/-- Closed form of the merged `After` bound: the maximum with zero as unset. -/
def mergeAfterVal (x y : Int) : Int :=
  if y = 0 then x else if x = 0 then y else max x y

/-- Closed form of the merged `Before` bound: the minimum with zero as unset. -/
def mergeBeforeVal (x y : Int) : Int :=
  if y = 0 then x else if x = 0 then y else min x y

mutual

/-- Source `query.MergeFilters` (query.go): distribute into `extra.Or` when present,
otherwise the sequential AND-field merge, with `merged := base` updated in
order (LevelIn, Level, Search, After, Before). -/
def MergeFilters (base extra : Filters) : Except String Filters :=
  match extra with
  | .mk el es ea eb eor elin =>
    if eor.length > 0 then
      if isEmptyFilters base then .ok (.mk el es ea eb eor elin)
      else do
        let branches ← mergeEach base eor
        .ok (.mk [] [] 0 0 branches [])
    else do
      let m1 ←
        if elin.length > 0 then
          if base.level ≠ [] ∨ base.levelIn.length > 0 then
            throw ("conflicting level filters")
          else pure (setLevelIn base (base.levelIn ++ elin))
        else pure base
      let m2 ←
        if el ≠ [] then
          if m1.level ≠ [] ∧ ¬ (equalFold m1.level el = true) then
            throw ("conflicting level filters")
          else if m1.levelIn.length > 0 then throw ("conflicting level filters")
          else pure (setLevel m1 el)
        else pure m1
      let m3 ←
        if es ≠ [] then
          if m2.search ≠ [] ∧ m2.search ≠ es then
            throw ("conflicting search filters")
          else pure (setSearch m2 es)
        else pure m2
      .ok (mergeBeforeStep (mergeAfterStep m3 ea) eb)

/-- The `for _, opt := range extra.Or { MergeFilters(base, opt) }` loop. -/
def mergeEach (base : Filters) : List Filters → Except String (List Filters)
  | [] => .ok []
  | o :: rest => do
    let m ← MergeFilters base o
    let ms ← mergeEach base rest
    .ok (m :: ms)

end

/-- Source `index.hourBucket`: the UTC timestamp truncated to the hour.  The Go code
formats it as the fixed-width key `YYYY-MM-DDTHH`; the key is modelled by the
order-isomorphic integer hour index. -/
def hourBucket (t : Int) : Int := Int.ediv t 3600

/-- Source `m[k] = append(m[k], v)` on a Go map with `nil` default. -/
def appendAt {κ β : Type} [DecidableEq κ] (m : κ → List β) (k : κ) (v : β) :
    κ → List β :=
  fun k2 => if k2 = k then m k ++ [v] else m k2

/-- Sorted distinct hour keys of an entry list: in Go, the keys of the `ByHour`
map (equivalently the `hourSet`) collected by range iteration and then passed
through `sort.Strings`. -/
def sortedHourKeys (entries : List LogEntry) : List Int :=
  List.insertionSort (· ≤ ·) ((entries.map (fun e => hourBucket e.timestamp)).dedup)

/-- Source `index.Index`: entry buckets by upper-cased level and by hour, plus the
sorted bucket-key list. -/
structure Index where
  byLevel : Str → List LogEntry
  byHour : Int → List LogEntry
  hours : List Int

/-- Source `index.SnapshotIndex`: the same buckets as positions into an entries array. -/
structure SnapshotIndex where
  byLevel : Str → List Int
  byHour : Int → List Int
  hours : List Int

/-- Source `index.Build`: one pass appending each entry to its level and hour buckets;
`Hours` is the sorted key set of `ByHour`. -/
def Build (entries : List LogEntry) : Index :=
  { byLevel :=
      entries.foldl (fun m e => appendAt m (toUpperStr e.level) e) (fun _ => [])
    byHour :=
      entries.foldl (fun m e => appendAt m (hourBucket e.timestamp) e) (fun _ => [])
    hours := sortedHourKeys entries }

/-- Source `index.ToSnapshotIndex`: positions of each entry appended to its level and
hour buckets (the `idx` argument is unused by the Go code, which re-walks
`entries` with `for i, e := range entries`). -/
def ToSnapshotIndex (_idx : Index) (entries : List LogEntry) : SnapshotIndex :=
  { byLevel :=
      entries.enum.foldl
        (fun m p => appendAt m (toUpperStr p.2.level) (Int.ofNat p.1)) (fun _ => [])
    byHour :=
      entries.enum.foldl
        (fun m p => appendAt m (hourBucket p.2.timestamp) (Int.ofNat p.1)) (fun _ => [])
    hours := sortedHourKeys entries }

/-- The body of the rehydration loops in `index.FromSnapshotIndex`: positions
inside `[0, len(entries))` contribute `entries[i]`, others are skipped. -/
def rehydrateList (indices : List Int) (entries : List LogEntry) : List LogEntry :=
  match indices with
  | [] => []
  | i :: rest =>
    if h : 0 ≤ i ∧ i < (entries.length : Int) then
      entries.get ⟨i.toNat, by omega⟩ :: rehydrateList rest entries
    else rehydrateList rest entries

/-- Source `index.FromSnapshotIndex`: rebuild buckets from position lists, copying
`Hours` verbatim. -/
def FromSnapshotIndex (si : SnapshotIndex) (entries : List LogEntry) : Index :=
  { byLevel := fun k => rehydrateList (si.byLevel k) entries
    byHour := fun k => rehydrateList (si.byHour k) entries
    hours := si.hours }

/-- Source `index.collectFromHourBuckets`: concatenate `ByHour[key]` over the sorted
`Hours` keys that are not below the cutoff's own bucket. -/
def collectFromHourBuckets (idx : Index) (cutoff : Int) : List LogEntry :=
  if idx.hours.length = 0 then []
  else
    (idx.hours.filter (fun k => decide (¬ k < hourBucket cutoff))).flatMap idx.byHour

/-- The `seen`-set loop shared by the OR union and the LevelIn union in
`index.FilterWithFilters`: keep the first occurrence of each `entryKey`. -/
def dedupGo (seen : List (Int × Str × Str)) (acc : List LogEntry) :
    List LogEntry → List LogEntry
  | [] => acc
  | e :: rest =>
    if entryKey e ∈ seen then dedupGo seen acc rest
    else dedupGo (entryKey e :: seen) (acc ++ [e]) rest

def dedupByKey (l : List LogEntry) : List LogEntry := dedupGo [] [] l

mutual

/-- Source `index.FilterWithFilters`: OR branches are evaluated recursively and
de-dup-unioned; otherwise candidates come from the index (exact level bucket,
LevelIn union, or hour buckets from `After`) and every candidate is re-checked
against the full filter (the verification loop's early `continue`s turned into
conjuncts). -/
def FilterWithFilters (all : List LogEntry) (idx : Option Index) :
    Filters → List LogEntry
  | .mk level searchS afterT beforeT orL levelIn =>
    if orL.length > 0 then dedupByKey (orFlatten all idx orL)
    else
      let candidates :=
        match idx with
        | none => all
        | some i =>
          if level ≠ [] then i.byLevel (toUpperStr level)
          else if levelIn.length > 0 then
            dedupByKey (levelIn.flatMap (fun lvl => i.byLevel (toUpperStr lvl)))
          else if afterT ≠ 0 then collectFromHourBuckets i afterT
          else all
      candidates.filter (fun e =>
        (decide (level = []) || equalFold e.level level) &&
        (decide (levelIn = []) || levelIn.any (fun lvl => equalFold e.level lvl)) &&
        (decide (afterT = 0) || decide (afterT ≤ e.timestamp)) &&
        (decide (beforeT = 0) || decide (e.timestamp < beforeT)) &&
        (decide (searchS = []) ||
          containsSub (toLowerStr e.message) (toLowerStr searchS)))

/-- The `for _, opt := range f.Or { part := FilterWithFilters(...) ... }` loop;
feeding the concatenation of the parts through the one shared `seen` set is
the same computation as de-duplicating their concatenation. -/
def orFlatten (all : List LogEntry) (idx : Option Index) :
    List Filters → List LogEntry
  | [] => []
  | opt :: rest => FilterWithFilters all idx opt ++ orFlatten all idx rest

end

/-- Source `engine.QueryEntries` (results only; the metrics record carries wall-clock
times and counts that do not affect the returned entries): index-assisted or
full-scan filtering, then the limit truncation. -/
def QueryEntries (entries : List LogEntry) (useIndex : Bool) (optIdx : Option Index)
    (f : Filters) (limit : Nat) : List LogEntry :=
  let filtered :=
    if useIndex then
      let idx := match optIdx with | some i => i | none => Build entries
      FilterWithFilters entries (some idx) f
    else entries.filter (fun e => MatchesFilters e f)
  if limit > 0 ∧ limit < filtered.length then filtered.take limit else filtered

/-- Source `query.tokenize`: split on unquoted spaces/tabs, with single or double
quotes toggling literal mode (the quote characters themselves are dropped);
an unterminated quote is an error.  State: accumulated tokens, the current
builder, and the open quote character. -/
def tokenizeGo (acc : List Str) (b : Str) (inQuote : Option Char) :
    Str → Except String (List Str)
  | [] =>
    if inQuote.isSome then .error ("unterminated quote")
    else if b.length > 0 then .ok (acc ++ [b]) else .ok acc
  | ch :: rest =>
    match inQuote with
    | some q =>
      if ch = q then tokenizeGo acc b none rest
      else tokenizeGo acc (b ++ [ch]) (some q) rest
    | none =>
      if ch = dquoteChar ∨ ch = squoteChar then tokenizeGo acc b (some ch) rest
      else if ch = spaceChar ∨ ch = tabChar then
        if b.length > 0 then tokenizeGo (acc ++ [b]) [] none rest
        else tokenizeGo acc [] none rest
      else tokenizeGo acc (b ++ [ch]) none rest

def tokenize (input : Str) : Except String (List Str) :=
  tokenizeGo [] [] none input

/-- The literal `OR`. -/
def orWord : Str := ("OR").toList

/-- The literal `in`. -/
def inWord : Str := ("in").toList

/-- The literal `" in "` searched for by `splitToken`. -/
def inPat : Str := (" in ").toList

/-- Source `query.splitOnOR`: case-insensitive `OR` tokens close the current group;
a token followed by `in` and one more token is re-joined as
`t + " in " + tokens[i+2]` (requires two tokens after `t`). -/
def splitOnORGo (groups : List (List Str)) (current : List Str) :
    List Str → List (List Str)
  | [] => if current.length > 0 then groups ++ [current] else groups
  | t :: rest =>
    if equalFold t orWord then
      if current.length > 0 then splitOnORGo (groups ++ [current]) [] rest
      else splitOnORGo groups [] rest
    else
      match rest with
      | t1 :: t2 :: rest2 =>
        if equalFold t1 inWord then
          splitOnORGo groups (current ++ [t ++ [spaceChar] ++ inWord ++ [spaceChar] ++ t2]) rest2
        else splitOnORGo groups (current ++ [t]) (t1 :: t2 :: rest2)
      | short => splitOnORGo groups (current ++ [t]) short

def splitOnOR (tokens : List Str) : List (List Str) :=
  splitOnORGo [] [] tokens

/-- Source `query.trimQuotes`: strip one matching pair of surrounding quotes. -/
def trimQuotes (s : Str) : Str :=
  if s.length ≥ 2 then
    if (s.head? = some dquoteChar ∧ s.getLast? = some dquoteChar) ∨
        (s.head? = some squoteChar ∧ s.getLast? = some squoteChar) then
      (s.drop 1).dropLast
    else s
  else s

/-- Source `query.splitToken` (the AND/OR parser's version): an embedded `" in "` in
the lowered token splits into `(key, "in", value)` with the value only
space-trimmed; otherwise the first `~` or else the first `=` splits into
`(key, op, trimQuotes value)`. -/
def splitToken (token : Str) : Except String (Str × Str × Str) :=
  match idxOfSub inPat (toLowerStr token) 0 with
  | some idx =>
    let key := trimSpace (token.take idx)
    let val := trimSpace (token.drop (idx + 4))
    if key = [] ∨ val = [] then .error ("invalid token")
    else .ok (key, inWord, trimSpace val)
  | none =>
    match token.findIdx? (fun c => c = tildeChar) with
    | some idx =>
      let key := trimSpace (token.take idx)
      let val := trimSpace (token.drop (idx + 1))
      if key = [] ∨ val = [] then .error ("invalid token")
      else .ok (key, [tildeChar], trimQuotes val)
    | none =>
      match token.findIdx? (fun c => c = eqChar) with
      | some idx =>
        let key := trimSpace (token.take idx)
        let val := trimSpace (token.drop (idx + 1))
        if key = [] ∨ val = [] then .error ("invalid token")
        else .ok (key, [eqChar], trimQuotes val)
      | none => .error ("expected key=value or key~value")

/-- Source `query.parseInList`: strip one `( ... )` pair when both ends are present,
split on commas, trim and unquote each item, drop the empty ones; an empty
resulting list is an error. -/
def parseInList (val : Str) : Except String (List Str) :=
  let v0 := trimSpace val
  let v1 :=
    if [lparenChar].isPrefixOf v0 ∧ [rparenChar].isSuffixOf v0 then
      (v0.drop 1).dropLast
    else v0
  let out := (v1.splitOn commaChar).map (fun p => trimQuotes (trimSpace p))
    |>.filter (fun item => decide (¬ item = []))
  if out.length = 0 then .error ("empty in() list") else .ok out

def kwLevel : Str := ("level").toList

def kwMessage : Str := ("message").toList

def kwSearch : Str := ("search").toList

def kwSince : Str := ("since").toList

def kwAfter : Str := ("after").toList

def kwBefore : Str := ("before").toList

/-- Source `query.parseAndGroup`: fold the tokens of one AND-group into a `Filters`.
`now` models `time.Now()`; `pd` models `time.ParseDuration`; `pt` models
`time.Parse(time.RFC3339, ·)` (both returning `none` on a parse failure). -/
def parseAndGroupGo (now : Int) (pd pt : Str → Option Int) (f : Filters) :
    List Str → Except String Filters
  | [] => .ok f
  | t :: rest => do
    let (key, op, val) ← splitToken t
    let lk := toLowerStr key
    if lk = kwLevel then
      if op = inWord then do
        let levels ← parseInList val
        parseAndGroupGo now pd pt (setLevelIn f (f.levelIn ++ levels)) rest
      else if ¬ op = [eqChar] then .error ("level supports only = or in")
      else parseAndGroupGo now pd pt (setLevel f val) rest
    else if lk = kwMessage ∨ lk = kwSearch then
      if ¬ op = [tildeChar] ∧ ¬ op = [eqChar] then
        .error ("message/search supports ~ or =")
      else parseAndGroupGo now pd pt (setSearch f val) rest
    else if lk = kwSince then
      if ¬ op = [eqChar] then .error ("since supports only =")
      else
        match pd val with
        | none => .error ("invalid since duration")
        | some d => parseAndGroupGo now pd pt (setAfter f (now - d)) rest
    else if lk = kwAfter then
      if ¬ op = [eqChar] then .error ("after supports only =")
      else
        match pt val with
        | none => .error ("invalid after timestamp")
        | some tm => parseAndGroupGo now pd pt (setAfter f tm) rest
    else if lk = kwBefore then
      if ¬ op = [eqChar] then .error ("before supports only =")
      else
        match pt val with
        | none => .error ("invalid before timestamp")
        | some tm => parseAndGroupGo now pd pt (setBefore f tm) rest
    else .error ("unknown filter")

def parseAndGroup (now : Int) (pd pt : Str → Option Int) (tokens : List Str) :
    Except String Filters :=
  parseAndGroupGo now pd pt emptyFilters tokens

/-- The `for _, g := range groups` loop of `query.Parse` building `root.Or`. -/
def parseGroups (now : Int) (pd pt : Str → Option Int) :
    List (List Str) → Except String (List Filters)
  | [] => .ok []
  | g :: rest => do
    let f ← parseAndGroup now pd pt g
    let fs ← parseGroups now pd pt rest
    .ok (f :: fs)

/-- Source `query.Parse` (the AND/OR version): tokenize, split on `OR`, then a single
group parses directly while several become an OR-list. -/
def Parse (now : Int) (pd pt : Str → Option Int) (input : Str) :
    Except String Filters := do
  let tokens ← tokenize input
  match splitOnOR tokens with
  | [] => .ok emptyFilters
  | [g] => parseAndGroup now pd pt g
  | gs => do
    let fs ← parseGroups now pd pt gs
    .ok (.mk [] [] 0 0 fs [])

/-- Source `shard` day key: the UTC calendar day truncation `time.Date(Y, M, D, 0...)`
of a timestamp, modelled by the order-isomorphic integer day index (the
formatted `YYYY-MM-DD` key is fixed-width and zero-padded). -/
def dayIdx (t : Int) : Int := Int.ediv t 86400

/-- The `for d := startDay; !d.After(endDay); d = d.Add(24h)` loop of
`shard.DaysInRange`, over day indices. -/
def dayLoop (d e : Int) : List Int :=
  if h : d ≤ e then d :: dayLoop (d + 1) e else []
termination_by (e + 1 - d).toNat
decreasing_by
  omega

/-- Source `shard.DaysInRange`: no days when both bounds are zero-value; otherwise the
effective bounds (a zero bound is replaced by the other, inverted bounds are
swapped) are truncated to days and every day in between is emitted. -/
def DaysInRange (afterT beforeT : Int) : List Int :=
  if afterT = 0 ∧ beforeT = 0 then []
  else
    let start0 := if afterT = 0 then beforeT else afterT
    let end0 := if beforeT = 0 then afterT else beforeT
    let start1 := if end0 < start0 then end0 else start0
    let end1 := if end0 < start0 then start0 else end0
    dayLoop (dayIdx start1) (dayIdx end1)

/-- Source `snapshot.Version`. -/
def snapshotVersion : Int := 1

/-- Source `snapshot.Metadata` (the fields the load path reads). -/
structure SnapMetadata where
  version : Int
  entryCount : Int
deriving DecidableEq, Repr

/-- Source `snapshot.Snapshot`: metadata, entries and the position-form index. -/
structure Snapshot where
  metadata : SnapMetadata
  entries : List LogEntry
  sindex : SnapshotIndex

/-- Source `engine.LoadStats`. -/
structure LoadStats where
  logsRead : Nat
  logsIngested : Nat
deriving DecidableEq, Repr

/-- Source `engine.LoadResult`. -/
structure LoadResult where
  entries : List LogEntry
  stats : LoadStats
  index : Option Index

/-- Source `engine.applyRetention`: keep entries not before the cutoff. -/
def applyRetention (entries : List LogEntry) (cutoff : Int) : List LogEntry :=
  entries.filter (fun e => decide (cutoff ≤ e.timestamp))

/-- The `opts.SnapshotPath != ""` branch of `engine.LoadEntries`, followed by
the retention step, returning Go's `(LoadResult, error)` pair.  File I/O is
abstracted: `snap` is the parsed snapshot (`snapshot.Load`), `storeEntries`
the store contents (`store.LoadJSONL`, read only when `replay` is set and a
store path is configured), `now` the clock. -/
def LoadEntriesSnapshot (snap : Snapshot) (replay storePathSet : Bool)
    (storeEntries : List LogEntry) (retention : Int) (now : Int) :
    LoadResult × Option String :=
  if snap.metadata.version ≠ snapshotVersion then
    (⟨[], ⟨0, 0⟩, none⟩, some ("snapshot version mismatch"))
  else
    let entries := snap.entries
    let stats : LoadStats := ⟨snap.entries.length, snap.entries.length⟩
    let loadedIndex : Option Index := some (FromSnapshotIndex snap.sindex snap.entries)
    let step :=
      if replay ∧ storePathSet then
        (entries ++ storeEntries,
          (⟨stats.logsRead + storeEntries.length,
            stats.logsIngested + storeEntries.length⟩ : LoadStats),
          (none : Option Index))
      else (entries, stats, loadedIndex)
    let finalEntries :=
      if retention > 0 then applyRetention step.1 (now - retention) else step.1
    (⟨finalEntries, step.2.1, step.2.2⟩, none)

/-! Basic lemmas about the embedded definitions. -/

@[simp] theorem Filters.level_mk (l s : Str) (a b : Int) (o : List Filters) (li : List Str) :
    (Filters.mk l s a b o li).level = l := rfl

@[simp] theorem Filters.search_mk (l s : Str) (a b : Int) (o : List Filters) (li : List Str) :
    (Filters.mk l s a b o li).search = s := rfl

@[simp] theorem Filters.afterT_mk (l s : Str) (a b : Int) (o : List Filters) (li : List Str) :
    (Filters.mk l s a b o li).afterT = a := rfl

@[simp] theorem Filters.beforeT_mk (l s : Str) (a b : Int) (o : List Filters) (li : List Str) :
    (Filters.mk l s a b o li).beforeT = b := rfl

@[simp] theorem Filters.orL_mk (l s : Str) (a b : Int) (o : List Filters) (li : List Str) :
    (Filters.mk l s a b o li).orL = o := rfl

@[simp] theorem Filters.levelIn_mk (l s : Str) (a b : Int) (o : List Filters) (li : List Str) :
    (Filters.mk l s a b o li).levelIn = li := rfl

theorem entryKey_inj {x y : LogEntry} : entryKey x = entryKey y ↔ x = y := by
  cases x; cases y; simp [entryKey]

theorem equalFold_iff {a b : Str} : equalFold a b = true ↔ toUpperStr a = toUpperStr b := by
  simp [equalFold]

theorem matchesAnyOr_iff (e : LogEntry) (l : List Filters) :
    matchesAnyOr e l = true ↔ ∃ g ∈ l, MatchesFilters e g = true := by
  induction l with
  | nil => simp [matchesAnyOr]
  | cons g t ih => simp [matchesAnyOr, ih]

theorem mem_dedupGo (x : LogEntry) :
    ∀ (l : List LogEntry) (seen : List (Int × Str × Str)) (acc : List LogEntry),
      x ∈ dedupGo seen acc l ↔ x ∈ acc ∨ (x ∈ l ∧ entryKey x ∉ seen) := by
  intro l
  induction l with
  | nil => intro seen acc; simp [dedupGo]
  | cons e t ih =>
    intro seen acc
    by_cases h : entryKey e ∈ seen
    · rw [dedupGo, if_pos h, ih]
      constructor
      · rintro (hx | ⟨hx, hs⟩)
        · exact Or.inl hx
        · exact Or.inr ⟨List.mem_cons_of_mem _ hx, hs⟩
      · rintro (hx | ⟨hx, hs⟩)
        · exact Or.inl hx
        · rcases List.mem_cons.mp hx with rfl | hx
          · exact absurd h hs
          · exact Or.inr ⟨hx, hs⟩
    · rw [dedupGo, if_neg h, ih]
      constructor
      · rintro (hx | ⟨hx, hs⟩)
        · rcases List.mem_append.mp hx with hx | hx
          · exact Or.inl hx
          · simp only [List.mem_singleton] at hx
            subst hx
            exact Or.inr ⟨List.mem_cons_self _ _, h⟩
        · exact Or.inr ⟨List.mem_cons_of_mem _ hx,
            fun hc => hs (List.mem_cons_of_mem _ hc)⟩
      · rintro (hx | ⟨hx, hs⟩)
        · exact Or.inl (List.mem_append.mpr (Or.inl hx))
        · rcases List.mem_cons.mp hx with rfl | hx
          · exact Or.inl (List.mem_append.mpr (Or.inr (List.mem_singleton.mpr rfl)))
          · by_cases hk : entryKey x = entryKey e
            · have : x = e := entryKey_inj.mp hk
              subst this
              exact Or.inl (List.mem_append.mpr (Or.inr (List.mem_singleton.mpr rfl)))
            · refine Or.inr ⟨hx, ?_⟩
              intro hc
              rcases List.mem_cons.mp hc with hc | hc
              · exact hk hc
              · exact hs hc

theorem mem_dedupByKey (x : LogEntry) (l : List LogEntry) : x ∈ dedupByKey l ↔ x ∈ l := by
  simp [dedupByKey, mem_dedupGo]

theorem foldl_appendAt_apply {α κ β : Type} [DecidableEq κ] (key : α → κ) (val : α → β) :
    ∀ (l : List α) (m : κ → List β) (k : κ),
      (l.foldl (fun acc a => appendAt acc (key a) (val a)) m) k
        = m k ++ (l.filter (fun a => decide (key a = k))).map val := by
  intro l
  induction l with
  | nil => intro m k; simp
  | cons a t ih =>
    intro m k
    rw [List.foldl_cons, ih]
    by_cases h : key a = k
    · subst h
      simp [appendAt, List.filter_cons]
    · have h2 : ¬ k = key a := fun hc => h hc.symm
      simp [appendAt, List.filter_cons, h, h2]

theorem build_byLevel (entries : List LogEntry) (k : Str) :
    (Build entries).byLevel k
      = entries.filter (fun e => decide (toUpperStr e.level = k)) := by
  simpa [Build] using
    foldl_appendAt_apply (fun e : LogEntry => toUpperStr e.level) (fun e => e)
      entries (fun _ => []) k

theorem build_byHour (entries : List LogEntry) (k : Int) :
    (Build entries).byHour k
      = entries.filter (fun e => decide (hourBucket e.timestamp = k)) := by
  simpa [Build] using
    foldl_appendAt_apply (fun e : LogEntry => hourBucket e.timestamp) (fun e => e)
      entries (fun _ => []) k

theorem mem_sortedHourKeys (entries : List LogEntry) (k : Int) :
    k ∈ sortedHourKeys entries ↔ ∃ e ∈ entries, hourBucket e.timestamp = k := by
  simp [sortedHourKeys, (List.perm_insertionSort _ _).mem_iff, List.mem_dedup]

theorem fwf_pass_iff (e : LogEntry) (level searchS : Str) (a b : Int) (lin : List Str) :
    (((decide (level = []) || equalFold e.level level) &&
      (decide (lin = []) || lin.any (fun lvl => equalFold e.level lvl)) &&
      (decide (a = 0) || decide (a ≤ e.timestamp)) &&
      (decide (b = 0) || decide (e.timestamp < b)) &&
      (decide (searchS = []) ||
        containsSub (toLowerStr e.message) (toLowerStr searchS))) = true)
    ↔ MatchesFilters e (.mk level searchS a b [] lin) = true := by
  simp only [MatchesFilters, List.length_nil, gt_iff_lt, lt_self_iff_false, if_false,
    Bool.and_eq_true, Bool.or_eq_true, decide_eq_true_eq]
  tauto

theorem mem_orFlatten (all : List LogEntry) (idx : Option Index) (x : LogEntry) :
    ∀ l : List Filters,
      x ∈ orFlatten all idx l ↔ ∃ g ∈ l, x ∈ FilterWithFilters all idx g := by
  intro l
  induction l with
  | nil => simp [orFlatten]
  | cons g t ih => simp [orFlatten, ih]

theorem matches_or_eq (e : LogEntry) (l s : Str) (a b : Int) (g : Filters)
    (gs : List Filters) (li : List Str) :
    MatchesFilters e (.mk l s a b (g :: gs) li) = matchesAnyOr e (g :: gs) := by
  simp [MatchesFilters]

theorem fwf_or_eq (all : List LogEntry) (idx : Option Index) (l s : Str) (a b : Int)
    (g : Filters) (gs : List Filters) (li : List Str) :
    FilterWithFilters all idx (.mk l s a b (g :: gs) li)
      = dedupByKey (orFlatten all idx (g :: gs)) := by
  simp [FilterWithFilters]

/-- C5: for an AND-filter (empty OR list), `MatchesFilters` is the conjunction:
case-insensitive `levelIn` membership when set, case-insensitive `level`
equality when set, the half-open interval `[after, before)` (each bound only
when set), and case-insensitive substring containment of `search` in the
message; unset fields are vacuous, and the empty AND-filter matches every
entry. -/
theorem C5_and_filter_semantics (e : LogEntry) (level searchS : Str) (a b : Int)
    (lin : List Str) :
    (MatchesFilters e (.mk level searchS a b [] lin) = true ↔
      ((lin ≠ [] → ∃ lvl ∈ lin, equalFold e.level lvl = true) ∧
       (level ≠ [] → equalFold e.level level = true) ∧
       (a ≠ 0 → a ≤ e.timestamp) ∧
       (b ≠ 0 → e.timestamp < b) ∧
       (searchS ≠ [] →
         containsSub (toLowerStr e.message) (toLowerStr searchS) = true))) ∧
    MatchesFilters e emptyFilters = true := by
  constructor
  · simp only [MatchesFilters, List.length_nil, gt_iff_lt, lt_self_iff_false, if_false,
      Bool.and_eq_true, Bool.or_eq_true, decide_eq_true_eq, List.any_eq_true]
    tauto
  · simp [MatchesFilters, emptyFilters]

/-- C10: when the OR list is non-empty, both `MatchesFilters` and
`FilterWithFilters` ignore the root filter's own level, levelIn, search,
after and before fields, and the result is determined by the OR branches:
matching holds iff some branch matches, and an entry is returned iff some
branch returns it. -/
theorem C10_or_ignores_root_fields (e : LogEntry) (all : List LogEntry)
    (idx : Option Index) (level searchS : Str) (a b : Int) (g : Filters)
    (gs : List Filters) (lin : List Str) :
    (MatchesFilters e (.mk level searchS a b (g :: gs) lin)
       = MatchesFilters e (.mk [] [] 0 0 (g :: gs) [])) ∧
    (MatchesFilters e (.mk level searchS a b (g :: gs) lin) = true ↔
       ∃ br ∈ g :: gs, MatchesFilters e br = true) ∧
    (FilterWithFilters all idx (.mk level searchS a b (g :: gs) lin)
       = FilterWithFilters all idx (.mk [] [] 0 0 (g :: gs) [])) ∧
    (e ∈ FilterWithFilters all idx (.mk level searchS a b (g :: gs) lin) ↔
       ∃ br ∈ g :: gs, e ∈ FilterWithFilters all idx br) := by
  refine ⟨?_, ?_, ?_, ?_⟩
  · rw [matches_or_eq, matches_or_eq]
  · rw [matches_or_eq]
    exact matchesAnyOr_iff e (g :: gs)
  · rw [fwf_or_eq, fwf_or_eq]
  · rw [fwf_or_eq]
    simp [mem_dedupByKey, mem_orFlatten]

theorem hourBucket_mono {t s : Int} (h : t ≤ s) : hourBucket t ≤ hourBucket s := by
  have := Int.ediv_le_ediv (a := t) (b := s) (c := 3600) (by norm_num) h
  simpa [hourBucket, Int.ediv] using this

theorem mem_filter_cand (cand all : List LogEntry) (p : LogEntry → Bool)
    (h : ∀ x, p x = true → (x ∈ cand ↔ x ∈ all)) (e : LogEntry) :
    e ∈ cand.filter p ↔ e ∈ all ∧ p e = true := by
  rw [List.mem_filter]
  constructor
  · rintro ⟨hc, hp⟩
    exact ⟨(h e hp).mp hc, hp⟩
  · rintro ⟨ha, hp⟩
    exact ⟨(h e hp).mpr ha, hp⟩

theorem matches_and_parts {e : LogEntry} {level searchS : Str} {a b : Int}
    {lin : List Str}
    (hm : MatchesFilters e (.mk level searchS a b [] lin) = true) :
    (level ≠ [] → toUpperStr e.level = toUpperStr level) ∧
    (lin ≠ [] → ∃ lvl ∈ lin, toUpperStr e.level = toUpperStr lvl) ∧
    (a ≠ 0 → a ≤ e.timestamp) := by
  simp only [MatchesFilters, List.length_nil, gt_iff_lt, lt_self_iff_false, if_false,
    Bool.and_eq_true, Bool.or_eq_true, decide_eq_true_eq, List.any_eq_true,
    equalFold_iff] at hm
  tauto

theorem mem_collectFromHourBuckets (all : List LogEntry) (cutoff : Int)
    (e : LogEntry) :
    e ∈ collectFromHourBuckets (Build all) cutoff
      ↔ e ∈ all ∧ ¬ hourBucket e.timestamp < hourBucket cutoff := by
  have hhours : (Build all).hours = sortedHourKeys all := rfl
  unfold collectFromHourBuckets
  by_cases h0 : (Build all).hours.length = 0
  · have hnil : sortedHourKeys all = [] := by
      rw [← hhours]
      exact List.length_eq_zero.mp h0
    have hall : all = [] := by
      rw [List.eq_nil_iff_forall_not_mem]
      intro x hx
      have hkx : hourBucket x.timestamp ∈ sortedHourKeys all :=
        (mem_sortedHourKeys all _).mpr ⟨x, hx, rfl⟩
      rw [hnil] at hkx
      exact List.not_mem_nil _ hkx
    subst hall
    simp [h0]
  · simp only [h0, if_false, List.mem_flatMap, List.mem_filter, decide_eq_true_eq]
    constructor
    · rintro ⟨k, ⟨hk, hge⟩, he⟩
      rw [build_byHour, List.mem_filter, decide_eq_true_eq] at he
      exact ⟨he.1, he.2 ▸ hge⟩
    · rintro ⟨hin, hge⟩
      refine ⟨hourBucket e.timestamp, ⟨?_, hge⟩, ?_⟩
      · rw [hhours]
        exact (mem_sortedHourKeys all _).mpr ⟨e, hin, rfl⟩
      · rw [build_byHour, List.mem_filter]
        exact ⟨hin, by simp⟩

theorem fwf_and_mem (all : List LogEntry) (level searchS : Str) (a b : Int)
    (lin : List Str) (e : LogEntry) :
    e ∈ FilterWithFilters all (some (Build all)) (.mk level searchS a b [] lin)
      ↔ e ∈ all ∧ MatchesFilters e (.mk level searchS a b [] lin) = true := by
  rw [FilterWithFilters]
  simp only [List.length_nil, gt_iff_lt, lt_self_iff_false, if_false]
  by_cases hl : level ≠ []
  · rw [if_pos hl]
    rw [mem_filter_cand _ all _ ?hchar e, fwf_pass_iff]
    case hchar =>
      intro x hx
      rw [fwf_pass_iff] at hx
      have hfold := (matches_and_parts hx).1 (by simpa using hl)
      rw [build_byLevel, List.mem_filter]
      simp [hfold]
  · rw [if_neg hl]
    push_neg at hl
    by_cases hli : lin.length > 0
    · rw [if_pos hli]
      rw [mem_filter_cand _ all _ ?hchar2 e, fwf_pass_iff]
      case hchar2 =>
        intro x hx
        rw [fwf_pass_iff] at hx
        have hlin : lin ≠ [] := by
          intro hc
          rw [hc] at hli
          simp at hli
        have hfold := (matches_and_parts hx).2.1 hlin
        rw [mem_dedupByKey, List.mem_flatMap]
        constructor
        · rintro ⟨lvl, _, hmem⟩
          rw [build_byLevel, List.mem_filter] at hmem
          exact hmem.1
        · intro hxall
          obtain ⟨lvl, hlvl, heq⟩ := hfold
          refine ⟨lvl, hlvl, ?_⟩
          rw [build_byLevel, List.mem_filter]
          simp [hxall, heq]
    · rw [if_neg hli]
      by_cases ha : a ≠ 0
      · rw [if_pos ha]
        rw [mem_filter_cand _ all _ ?hchar3 e, fwf_pass_iff]
        case hchar3 =>
          intro x hx
          rw [fwf_pass_iff] at hx
          have hle := (matches_and_parts hx).2.2 ha
          rw [mem_collectFromHourBuckets]
          have : ¬ hourBucket x.timestamp < hourBucket a := not_lt.mpr (hourBucket_mono hle)
          simp [this]
      · rw [if_neg ha]
        rw [mem_filter_cand _ all _ (fun x _ => Iff.rfl) e, fwf_pass_iff]

theorem fwf_indexed_mem_aux (all : List LogEntry) :
    ∀ n : Nat, ∀ f : Filters, sizeOf f ≤ n → ∀ e : LogEntry,
      (e ∈ FilterWithFilters all (some (Build all)) f
        ↔ e ∈ all ∧ MatchesFilters e f = true) := by
  intro n
  induction n with
  | zero =>
    intro f hf
    exfalso
    cases f with
    | mk l s a b o li =>
      rw [Filters.mk.sizeOf_spec] at hf
      omega
  | succ n ih =>
    intro f hf e
    cases f with
    | mk level searchS a b orL lin =>
      cases orL with
      | nil => exact fwf_and_mem all level searchS a b lin e
      | cons g gs =>
        have hsz : ∀ br ∈ g :: gs, sizeOf br ≤ n := by
          intro br hbr
          have h1 : sizeOf br < sizeOf (g :: gs) := List.sizeOf_lt_of_mem hbr
          rw [Filters.mk.sizeOf_spec] at hf
          omega
        rw [fwf_or_eq, matches_or_eq]
        rw [mem_dedupByKey, mem_orFlatten, matchesAnyOr_iff]
        constructor
        · rintro ⟨br, hbr, hin⟩
          have hres := (ih br (hsz br hbr) e).mp hin
          exact ⟨hres.1, br, hbr, hres.2⟩
        · rintro ⟨hall, br, hbr, hm⟩
          exact ⟨br, hbr, (ih br (hsz br hbr) e).mpr ⟨hall, hm⟩⟩

theorem fwf_indexed_mem (all : List LogEntry) (f : Filters) (e : LogEntry) :
    e ∈ FilterWithFilters all (some (Build all)) f
      ↔ e ∈ all ∧ MatchesFilters e f = true :=
  fwf_indexed_mem_aux all (sizeOf f) f le_rfl e

/-- C1 (amended): for every entry set, every filter and limit 0, executing the
query with an index built from that entry set and executing it with no index
(full scan using `MatchesFilters`) return the same set of entries, because
every index-selected candidate is re-checked against the full filter; order
may differ wherever index candidate selection concatenates per-level or
per-branch buckets (the `levelIn` de-duplicated union as well as OR
de-duplication), not only within OR tie groups. -/
theorem C1_index_fullscan_same_set (entries : List LogEntry) (f : Filters)
    (e : LogEntry) :
    e ∈ QueryEntries entries true none f 0
      ↔ e ∈ QueryEntries entries false none f 0 := by
  simp only [QueryEntries, gt_iff_lt, lt_self_iff_false, false_and, if_false,
    Bool.false_eq_true, if_true]
  rw [fwf_indexed_mem]
  rw [List.mem_filter]

/-- C1 counterexample to the order clause: with the AND-filter
`levelIn = [WARN, ERROR]` (whose OR list is empty, so no OR de-duplication tie
groups exist), the index-assisted execution returns the WARN entry first while
the full scan preserves input order, so the two orders differ outside any OR
tie group. -/
theorem C1_counterexample_order :
    (Filters.mk [] [] 0 0 [] [("WARN").toList, ("ERROR").toList]).orL.length = 0 ∧
    QueryEntries
        [⟨36300, ("ERROR").toList, ("a").toList⟩,
         ⟨38700, ("WARN").toList, ("b").toList⟩,
         ⟨40200, ("ERROR").toList, ("c").toList⟩]
        true none (.mk [] [] 0 0 [] [("WARN").toList, ("ERROR").toList]) 0
      = [⟨38700, ("WARN").toList, ("b").toList⟩,
         ⟨36300, ("ERROR").toList, ("a").toList⟩,
         ⟨40200, ("ERROR").toList, ("c").toList⟩] ∧
    QueryEntries
        [⟨36300, ("ERROR").toList, ("a").toList⟩,
         ⟨38700, ("WARN").toList, ("b").toList⟩,
         ⟨40200, ("ERROR").toList, ("c").toList⟩]
        false none (.mk [] [] 0 0 [] [("WARN").toList, ("ERROR").toList]) 0
      = [⟨36300, ("ERROR").toList, ("a").toList⟩,
         ⟨38700, ("WARN").toList, ("b").toList⟩,
         ⟨40200, ("ERROR").toList, ("c").toList⟩] ∧
    QueryEntries
        [⟨36300, ("ERROR").toList, ("a").toList⟩,
         ⟨38700, ("WARN").toList, ("b").toList⟩,
         ⟨40200, ("ERROR").toList, ("c").toList⟩]
        true none (.mk [] [] 0 0 [] [("WARN").toList, ("ERROR").toList]) 0
      ≠ QueryEntries
        [⟨36300, ("ERROR").toList, ("a").toList⟩,
         ⟨38700, ("WARN").toList, ("b").toList⟩,
         ⟨40200, ("ERROR").toList, ("c").toList⟩]
        false none (.mk [] [] 0 0 [] [("WARN").toList, ("ERROR").toList]) 0 := by
  refine ⟨rfl, by decide, by decide, by decide⟩

theorem rehydrateList_eq_filterMap (entries : List LogEntry) :
    ∀ indices : List Int,
      rehydrateList indices entries
        = indices.filterMap (fun i =>
            if 0 ≤ i then entries[i.toNat]? else none) := by
  intro indices
  induction indices with
  | nil => simp [rehydrateList]
  | cons i rest ih =>
    rw [rehydrateList, List.filterMap_cons]
    by_cases h : 0 ≤ i ∧ i < (entries.length : Int)
    · have h3 : i.toNat < entries.length := by omega
      rw [dif_pos h]
      simp only [h.1, if_true, List.getElem?_eq_getElem h3]
      rw [ih]
      rfl
    · rw [dif_neg h, ih]
      by_cases h2 : 0 ≤ i
      · have h3 : entries.length ≤ i.toNat := by omega
        simp [h2, List.getElem?_eq_none h3]
      · simp [h2]

theorem mem_enum_getElem? {l : List LogEntry} {p : Nat × LogEntry}
    (hp : p ∈ l.enum) : l[p.1]? = some p.2 := by
  obtain ⟨i, x⟩ := p
  obtain ⟨h1, h2⟩ := List.mem_enum hp
  rw [List.getElem?_eq_getElem h1, h2]

theorem rehydrateList_map_enum (entries : List LogEntry) :
    ∀ ps : List (Nat × LogEntry),
      (∀ p ∈ ps, entries[p.1]? = some p.2) →
      rehydrateList (ps.map (fun p => (Int.ofNat p.1))) entries = ps.map Prod.snd := by
  intro ps
  induction ps with
  | nil => intro _; simp [rehydrateList]
  | cons p t ih =>
    intro hps
    obtain ⟨h1, h2⟩ := List.getElem?_eq_some.mp (hps p (List.mem_cons_self _ _))
    simp only [List.map_cons]
    rw [rehydrateList]
    have hcond : 0 ≤ (Int.ofNat p.1) ∧ (Int.ofNat p.1) < (entries.length : Int) := by
      simp only [Int.ofNat_eq_coe]
      omega
    rw [dif_pos hcond]
    rw [ih (fun q hq => hps q (List.mem_cons_of_mem _ hq))]
    congr 1

theorem snap_byLevel (idx : Index) (entries : List LogEntry) (k : Str) :
    (ToSnapshotIndex idx entries).byLevel k
      = (entries.enum.filter (fun p => decide (toUpperStr p.2.level = k))).map
          (fun p => (Int.ofNat p.1)) := by
  simpa [ToSnapshotIndex] using
    foldl_appendAt_apply (fun p : Nat × LogEntry => toUpperStr p.2.level)
      (fun p => (Int.ofNat p.1)) entries.enum (fun _ => []) k

theorem snap_byHour (idx : Index) (entries : List LogEntry) (k : Int) :
    (ToSnapshotIndex idx entries).byHour k
      = (entries.enum.filter (fun p => decide (hourBucket p.2.timestamp = k))).map
          (fun p => (Int.ofNat p.1)) := by
  simpa [ToSnapshotIndex] using
    foldl_appendAt_apply (fun p : Nat × LogEntry => hourBucket p.2.timestamp)
      (fun p => (Int.ofNat p.1)) entries.enum (fun _ => []) k

theorem enum_filter_map_snd (l : List LogEntry) (p : LogEntry → Bool) :
    (l.enum.filter (fun q => p q.2)).map Prod.snd = l.filter p := by
  have h1 : l.enum.filter (fun q => p q.2) = l.enum.filter (p ∘ Prod.snd) := rfl
  rw [h1, ← List.filter_map, List.enum_map_snd]

/-- C2: rehydrating the snapshot form of a built index against the same entry
array (`FromSnapshotIndex` of `ToSnapshotIndex` of `Build`) is observationally
equivalent to `Build entries`: same `byLevel` buckets, same `byHour` buckets,
and the same `hours` list, provided the entry set has no duplicate
`(timestamp, level, message)` triples. -/
theorem C2_snapshot_roundtrip (entries : List LogEntry) (_hnd : entries.Nodup) :
    (∀ k : Str,
      (FromSnapshotIndex (ToSnapshotIndex (Build entries) entries) entries).byLevel k
        = (Build entries).byLevel k) ∧
    (∀ k : Int,
      (FromSnapshotIndex (ToSnapshotIndex (Build entries) entries) entries).byHour k
        = (Build entries).byHour k) ∧
    (FromSnapshotIndex (ToSnapshotIndex (Build entries) entries) entries).hours
      = (Build entries).hours := by
  refine ⟨?_, ?_, rfl⟩
  · intro k
    show rehydrateList ((ToSnapshotIndex (Build entries) entries).byLevel k) entries = _
    rw [snap_byLevel]
    rw [rehydrateList_map_enum entries _ ?hlv]
    case hlv =>
      intro p hp
      exact mem_enum_getElem? (List.mem_of_mem_filter hp)
    rw [build_byLevel]
    exact enum_filter_map_snd entries (fun x => decide (toUpperStr x.level = k))
  · intro k
    show rehydrateList ((ToSnapshotIndex (Build entries) entries).byHour k) entries = _
    rw [snap_byHour]
    rw [rehydrateList_map_enum entries _ ?hhr]
    case hhr =>
      intro p hp
      exact mem_enum_getElem? (List.mem_of_mem_filter hp)
    rw [build_byHour]
    exact enum_filter_map_snd entries (fun x => decide (hourBucket x.timestamp = k))

/-- C2 witness: the round-trip equivalence holds at a concrete duplicate-free
entry set. -/
theorem C2_snapshot_roundtrip_witness :
    ([⟨1, ("A").toList, ("m").toList⟩,
      ⟨2, ("B").toList, ("n").toList⟩] : List LogEntry).Nodup ∧
    ((∀ k : Str,
      (FromSnapshotIndex
          (ToSnapshotIndex
            (Build [⟨1, ("A").toList, ("m").toList⟩, ⟨2, ("B").toList, ("n").toList⟩])
            [⟨1, ("A").toList, ("m").toList⟩, ⟨2, ("B").toList, ("n").toList⟩])
          [⟨1, ("A").toList, ("m").toList⟩, ⟨2, ("B").toList, ("n").toList⟩]).byLevel k
        = (Build [⟨1, ("A").toList, ("m").toList⟩,
            ⟨2, ("B").toList, ("n").toList⟩]).byLevel k) ∧
    (∀ k : Int,
      (FromSnapshotIndex
          (ToSnapshotIndex
            (Build [⟨1, ("A").toList, ("m").toList⟩, ⟨2, ("B").toList, ("n").toList⟩])
            [⟨1, ("A").toList, ("m").toList⟩, ⟨2, ("B").toList, ("n").toList⟩])
          [⟨1, ("A").toList, ("m").toList⟩, ⟨2, ("B").toList, ("n").toList⟩]).byHour k
        = (Build [⟨1, ("A").toList, ("m").toList⟩,
            ⟨2, ("B").toList, ("n").toList⟩]).byHour k) ∧
    (FromSnapshotIndex
        (ToSnapshotIndex
          (Build [⟨1, ("A").toList, ("m").toList⟩, ⟨2, ("B").toList, ("n").toList⟩])
          [⟨1, ("A").toList, ("m").toList⟩, ⟨2, ("B").toList, ("n").toList⟩])
        [⟨1, ("A").toList, ("m").toList⟩, ⟨2, ("B").toList, ("n").toList⟩]).hours
      = (Build [⟨1, ("A").toList, ("m").toList⟩,
          ⟨2, ("B").toList, ("n").toList⟩]).hours) :=
  ⟨by decide, C2_snapshot_roundtrip _ (by decide)⟩

/-- C7: rehydration never fails; each position in a `byLevel` or `byHour`
snapshot list outside `[0, len(entries))` is silently dropped, every in-range
position contributes the corresponding entry, list order is preserved, and
the `hours` list is copied verbatim. -/
theorem C7_rehydration_lenient (si : SnapshotIndex) (entries : List LogEntry)
    (k : Str) (h : Int) :
    (FromSnapshotIndex si entries).byLevel k
      = (si.byLevel k).filterMap (fun i =>
          if 0 ≤ i then entries[i.toNat]? else none) ∧
    (FromSnapshotIndex si entries).byHour h
      = (si.byHour h).filterMap (fun i =>
          if 0 ≤ i then entries[i.toNat]? else none) ∧
    (FromSnapshotIndex si entries).hours = si.hours :=
  ⟨rehydrateList_eq_filterMap entries _, rehydrateList_eq_filterMap entries _, rfl⟩

theorem exceptPureBind {α β : Type} (x : α) (f : α → Except String β) :
    (pure x : Except String α) >>= f = f x := rfl

theorem exceptThrowBind {α β : Type} (s : String) (f : α → Except String β) :
    (throw s : Except String α) >>= f = Except.error s := rfl

theorem exceptOkBind {α β : Type} (x : α) (f : α → Except String β) :
    (Except.ok x : Except String α) >>= f = f x := rfl

theorem exceptErrorBind {α β : Type} (s : String) (f : α → Except String β) :
    (Except.error s : Except String α) >>= f = Except.error s := rfl

theorem mergeAfterStep_mk (L S : Str) (x B : Int) (o : List Filters) (li : List Str)
    (ea : Int) :
    mergeAfterStep (.mk L S x B o li) ea = .mk L S (mergeAfterVal x ea) B o li := by
  simp only [mergeAfterStep, mergeAfterVal, setAfter, Filters.afterT_mk]
  split_ifs <;> first | rfl | (simp [Filters.mk.injEq]; omega)

theorem mergeBeforeStep_mk (L S : Str) (A x : Int) (o : List Filters) (li : List Str)
    (eb : Int) :
    mergeBeforeStep (.mk L S A x o li) eb = .mk L S A (mergeBeforeVal x eb) o li := by
  simp only [mergeBeforeStep, mergeBeforeVal, setBefore, Filters.beforeT_mk]
  split_ifs <;> first | rfl | (simp [Filters.mk.injEq]; omega)

set_option maxHeartbeats 2000000 in
theorem merge_and_core (al as2 : Str) (aa ab2 : Int) (aor : List Filters)
    (ali : List Str) (bl bs : Str) (ba bb : Int) (m : Filters)
    (hm : MergeFilters (.mk al as2 aa ab2 aor ali) (.mk bl bs ba bb [] []) = .ok m) :
    m = .mk (if bl = [] then al else bl) (if bs = [] then as2 else bs)
        (mergeAfterVal aa ba) (mergeBeforeVal ab2 bb) aor ali ∧
    (bl ≠ [] → al ≠ [] → equalFold al bl = true) ∧
    (bl ≠ [] → ali = []) ∧
    (bs ≠ [] → as2 ≠ [] → as2 = bs) := by
  simp only [MergeFilters, List.length_nil, gt_iff_lt, lt_self_iff_false, if_false,
    Filters.level_mk, Filters.levelIn_mk, Filters.search_mk, Filters.afterT_mk,
    Filters.beforeT_mk, setLevel, setSearch, setLevelIn,
    exceptPureBind, exceptThrowBind, mergeAfterStep_mk, mergeBeforeStep_mk] at hm
  split_ifs at hm <;>
    first
      | (rw [Except.ok.injEq] at hm
         subst hm
         refine ⟨?_, ?_, ?_, ?_⟩
         · split_ifs <;> simp_all
         · tauto
         · intro h1
           first
             | tauto
             | exact List.length_eq_zero.mp (by omega)
         · tauto)

theorem merge_step1_decompose (al as2 : Str) (aa ab2 : Int) (aor : List Filters)
    (ali : List Str) (bl bs : Str) (ba bb : Int) (bli : List Str)
    (hbli : bli.length > 0) :
    MergeFilters (.mk al as2 aa ab2 aor ali) (.mk bl bs ba bb [] bli)
      = if al ≠ [] ∨ ali.length > 0 then Except.error ("conflicting level filters")
        else MergeFilters (.mk al as2 aa ab2 aor (ali ++ bli))
          (.mk bl bs ba bb [] []) := by
  by_cases hc : al ≠ [] ∨ ali.length > 0
  · rw [if_pos hc]
    simp only [MergeFilters, List.length_nil, gt_iff_lt, lt_self_iff_false, if_false,
      Filters.level_mk, Filters.levelIn_mk, exceptPureBind, exceptThrowBind]
    rw [if_pos hbli, if_pos hc]
  · rw [if_neg hc]
    simp only [MergeFilters, List.length_nil, gt_iff_lt, lt_self_iff_false, if_false,
      Filters.level_mk, Filters.levelIn_mk, setLevelIn, exceptPureBind, exceptThrowBind]
    rw [if_pos hbli, if_neg hc]

theorem merge_and_shape (al as2 : Str) (aa ab2 : Int) (aor : List Filters)
    (ali : List Str) (bl bs : Str) (ba bb : Int) (bli : List Str) (m : Filters)
    (hm : MergeFilters (.mk al as2 aa ab2 aor ali) (.mk bl bs ba bb [] bli) = .ok m) :
    m = .mk (if bl = [] then al else bl) (if bs = [] then as2 else bs)
        (mergeAfterVal aa ba) (mergeBeforeVal ab2 bb) aor (ali ++ bli) ∧
    (bl ≠ [] → al ≠ [] → equalFold al bl = true) ∧
    (bl ≠ [] → ali = [] ∧ bli = []) ∧
    (bli ≠ [] → al = [] ∧ ali = []) ∧
    (bs ≠ [] → as2 ≠ [] → as2 = bs) := by
  by_cases hbli : bli.length > 0
  · rw [merge_step1_decompose _ _ _ _ _ _ _ _ _ _ _ hbli] at hm
    by_cases hc : al ≠ [] ∨ ali.length > 0
    · rw [if_pos hc] at hm
      exact absurd hm (by simp)
    · rw [if_neg hc] at hm
      push_neg at hc
      obtain ⟨hal, hali0⟩ := hc
      have hali : ali = [] := by
        cases ali with
        | nil => rfl
        | cons x t => simp at hali0
      have core := merge_and_core al as2 aa ab2 aor (ali ++ bli) bl bs ba bb m hm
      refine ⟨core.1, core.2.1, ?_, fun _ => ⟨hal, hali⟩, core.2.2.2⟩
      intro hbl
      have h0 := core.2.2.1 hbl
      exact ⟨(List.append_eq_nil.mp h0).1, (List.append_eq_nil.mp h0).2⟩
  · have hbli2 : bli = [] := by
      cases bli with
      | nil => rfl
      | cons x t => simp at hbli
    subst hbli2
    have core := merge_and_core al as2 aa ab2 aor ali bl bs ba bb m (by simpa using hm)
    refine ⟨by simpa using core.1, core.2.1, fun hbl => ⟨core.2.2.1 hbl, rfl⟩,
      fun hc => absurd rfl hc, core.2.2.2⟩

theorem mergeAfterVal_comm (x y : Int) : mergeAfterVal x y = mergeAfterVal y x := by
  simp only [mergeAfterVal]
  split_ifs <;> omega

theorem mergeBeforeVal_comm (x y : Int) : mergeBeforeVal x y = mergeBeforeVal y x := by
  simp only [mergeBeforeVal]
  split_ifs <;> omega

theorem matches_congr_level (e : LogEntry) (L1 L2 S : Str) (A B : Int)
    (LI : List Str) (hL : toUpperStr L1 = toUpperStr L2) :
    MatchesFilters e (.mk L1 S A B [] LI) = MatchesFilters e (.mk L2 S A B [] LI) := by
  have hnil : (L1 = []) ↔ (L2 = []) := by
    constructor
    · intro h
      subst h
      simpa [toUpperStr] using hL.symm
    · intro h
      subst h
      simpa [toUpperStr] using hL
  have h1 : (decide (L1 = []) : Bool) = decide (L2 = []) := decide_eq_decide.mpr hnil
  have h2 : equalFold e.level L1 = equalFold e.level L2 := by simp [equalFold, hL]
  simp only [MatchesFilters, List.length_nil, gt_iff_lt, lt_self_iff_false, if_false]
  rw [h1, h2]

theorem merge_comm_matches (a b m1 m2 : Filters) (ha : a.orL = []) (hb : b.orL = [])
    (hm1 : MergeFilters a b = .ok m1) (hm2 : MergeFilters b a = .ok m2)
    (e : LogEntry) : MatchesFilters e m1 = MatchesFilters e m2 := by
  obtain ⟨al, as2, aa, ab2, aor, ali⟩ := a
  obtain ⟨bl, bs, ba, bb, bor, bli⟩ := b
  simp only [Filters.orL_mk] at ha hb
  subst ha
  subst hb
  have s1 := merge_and_shape al as2 aa ab2 [] ali bl bs ba bb bli m1 hm1
  have s2 := merge_and_shape bl bs ba bb [] bli al as2 aa ab2 ali m2 hm2
  have hS : (if bs = [] then as2 else bs) = (if as2 = [] then bs else as2) := by
    by_cases h1 : bs = [] <;> by_cases h2 : as2 = [] <;> simp [h1, h2]
    exact (s1.2.2.2.2 h1 h2).symm
  have hLI : ali ++ bli = bli ++ ali := by
    by_cases h1 : bli = []
    · simp [h1]
    · have h2 := s1.2.2.2.1 h1
      simp [h2.2, h1]
  have hL : toUpperStr (if bl = [] then al else bl)
      = toUpperStr (if al = [] then bl else al) := by
    by_cases h1 : bl = [] <;> by_cases h2 : al = [] <;> simp [h1, h2]
    exact (equalFold_iff.mp (s1.2.1 h1 h2)).symm
  rw [s1.1, s2.1, ← hS, ← hLI, mergeAfterVal_comm ba aa, mergeBeforeVal_comm bb ab2]
  exact matches_congr_level e _ _ _ _ _ _ hL

theorem merge_conflict (base : Filters) (bl bs : Str) (ba bb : Int) (bli : List Str)
    (hal : base.level ≠ []) (hbl : bl ≠ [])
    (hne : equalFold base.level bl = false) :
    ∃ msg, MergeFilters base (.mk bl bs ba bb [] bli) = .error msg := by
  obtain ⟨al, as2, aa, ab2, aor, ali⟩ := base
  simp only [Filters.level_mk] at hal hne
  cases h : MergeFilters (.mk al as2 aa ab2 aor ali) (.mk bl bs ba bb [] bli) with
  | error s => exact ⟨s, rfl⟩
  | ok m =>
    have s := merge_and_shape al as2 aa ab2 aor ali bl bs ba bb bli m h
    have hfold := s.2.1 hbl hal
    rw [hne] at hfold
    exact absurd hfold (by simp)

theorem mergeEach_length (base : Filters) :
    ∀ (l bs : List Filters), mergeEach base l = .ok bs → bs.length = l.length := by
  intro l
  induction l with
  | nil =>
    intro bs h
    simp only [mergeEach, Except.ok.injEq] at h
    subst h
    rfl
  | cons o t ih =>
    intro bs h
    simp only [mergeEach] at h
    cases hmo : MergeFilters base o with
    | error s =>
      rw [hmo, exceptErrorBind] at h
      exact absurd h (by simp)
    | ok mo =>
      rw [hmo, exceptOkBind] at h
      cases hms : mergeEach base t with
      | error s =>
        rw [hms, exceptErrorBind] at h
        exact absurd h (by simp)
      | ok ms =>
        rw [hms, exceptOkBind, Except.ok.injEq] at h
        subst h
        simp [ih ms hms]

theorem mergeEach_exists_iff (base : Filters) (P : Filters → Prop) :
    ∀ (l bs : List Filters), mergeEach base l = .ok bs →
      ((∃ mo ∈ bs, P mo) ↔
        ∃ opt ∈ l, ∃ mo, MergeFilters base opt = .ok mo ∧ P mo) := by
  intro l
  induction l with
  | nil =>
    intro bs h
    simp only [mergeEach, Except.ok.injEq] at h
    subst h
    simp
  | cons o t ih =>
    intro bs h
    simp only [mergeEach] at h
    cases hmo : MergeFilters base o with
    | error s =>
      rw [hmo, exceptErrorBind] at h
      exact absurd h (by simp)
    | ok mo =>
      rw [hmo, exceptOkBind] at h
      cases hms : mergeEach base t with
      | error s =>
        rw [hms, exceptErrorBind] at h
        exact absurd h (by simp)
      | ok ms =>
        rw [hms, exceptOkBind, Except.ok.injEq] at h
        subst h
        constructor
        · rintro ⟨x, hx, hP⟩
          rcases List.mem_cons.mp hx with rfl | hx
          · exact ⟨o, List.mem_cons_self _ _, x, hmo, hP⟩
          · obtain ⟨opt, hopt, mo2, hR2, hP2⟩ := (ih ms hms).mp ⟨x, hx, hP⟩
            exact ⟨opt, List.mem_cons_of_mem _ hopt, mo2, hR2, hP2⟩
        · rintro ⟨opt, hopt, mo2, hR2, hP2⟩
          rcases List.mem_cons.mp hopt with rfl | hopt
          · rw [hmo, Except.ok.injEq] at hR2
            subst hR2
            exact ⟨mo, List.mem_cons_self _ _, hP2⟩
          · obtain ⟨x, hx, hP⟩ := (ih ms hms).mpr ⟨opt, hopt, mo2, hR2, hP2⟩
            exact ⟨x, List.mem_cons_of_mem _ hx, hP⟩

/-- C3 (amended): when the extra side of a merge carries a non-empty OR-list,
`MergeFilters` distributes the base side's AND-constraints into every OR
branch provided the base is non-empty, so a successful merge matches an entry
iff some branch merged with the base matches it; when the base is the
all-empty filter, the extra filter is returned unchanged, so the result
matches iff some OR branch matches.  When instead the base side carries the
OR-list and the extra side does not, no distribution happens (see the
counterexample): the extra constraints land on root fields that matching
ignores. -/
theorem C3_or_distribution (base : Filters) (el es : Str) (ea eb : Int)
    (g : Filters) (gs : List Filters) (elin : List Str) (m : Filters)
    (hm : MergeFilters base (.mk el es ea eb (g :: gs) elin) = .ok m)
    (e : LogEntry) :
    (isEmptyFilters base = false →
      (MatchesFilters e m = true ↔
        ∃ opt ∈ g :: gs, ∃ mo, MergeFilters base opt = .ok mo ∧
          MatchesFilters e mo = true)) ∧
    (isEmptyFilters base = true →
      m = .mk el es ea eb (g :: gs) elin ∧
      (MatchesFilters e m = true ↔
        ∃ opt ∈ g :: gs, MatchesFilters e opt = true)) := by
  simp only [MergeFilters] at hm
  rw [if_pos (by simp : (g :: gs).length > 0)] at hm
  constructor
  · intro hne
    rw [hne] at hm
    rw [if_neg (by simp)] at hm
    cases hme : mergeEach base (g :: gs) with
    | error s =>
      rw [hme, exceptErrorBind] at hm
      exact absurd hm (by simp)
    | ok bs =>
      rw [hme, exceptOkBind, Except.ok.injEq] at hm
      subst hm
      have hlen := mergeEach_length base (g :: gs) bs hme
      cases bs with
      | nil => simp at hlen
      | cons b bs2 =>
        rw [matches_or_eq, matchesAnyOr_iff]
        exact mergeEach_exists_iff base (fun mo => MatchesFilters e mo = true)
          (g :: gs) (b :: bs2) hme
  · intro hemp
    rw [hemp] at hm
    rw [if_pos rfl] at hm
    rw [Except.ok.injEq] at hm
    subst hm
    refine ⟨rfl, ?_⟩
    rw [matches_or_eq]
    exact matchesAnyOr_iff e (g :: gs)

/-- C3 counterexample: when the BASE side carries the OR-list and the extra
side does not, `MergeFilters` succeeds but attaches the extra constraint
(`search~x`) to the root, where matching ignores it: the merged filter
matches the `hello` ERROR entry although neither OR branch merged with the
`search~x` constraint matches it. -/
theorem C3_counterexample :
    MergeFilters
        (.mk [] [] 0 0
          [.mk ("ERROR").toList [] 0 0 [] [], .mk ("WARN").toList [] 0 0 [] []] [])
        (.mk [] ("x").toList 0 0 [] [])
      = .ok (.mk [] ("x").toList 0 0
          [.mk ("ERROR").toList [] 0 0 [] [], .mk ("WARN").toList [] 0 0 [] []] []) ∧
    MatchesFilters ⟨0, ("ERROR").toList, ("hello").toList⟩
        (.mk [] ("x").toList 0 0
          [.mk ("ERROR").toList [] 0 0 [] [], .mk ("WARN").toList [] 0 0 [] []] [])
      = true ∧
    MergeFilters (.mk [] ("x").toList 0 0 [] []) (.mk ("ERROR").toList [] 0 0 [] [])
      = .ok (.mk ("ERROR").toList ("x").toList 0 0 [] []) ∧
    MatchesFilters ⟨0, ("ERROR").toList, ("hello").toList⟩
        (.mk ("ERROR").toList ("x").toList 0 0 [] []) = false ∧
    MergeFilters (.mk [] ("x").toList 0 0 [] []) (.mk ("WARN").toList [] 0 0 [] [])
      = .ok (.mk ("WARN").toList ("x").toList 0 0 [] []) ∧
    MatchesFilters ⟨0, ("ERROR").toList, ("hello").toList⟩
        (.mk ("WARN").toList ("x").toList 0 0 [] []) = false :=
  ⟨rfl, rfl, rfl, rfl, rfl, rfl⟩

/-- C3 witness: the distribution equivalence at the concrete non-empty base
`level=ERROR` against the OR-list `[empty filter]`. -/
theorem C3_or_distribution_witness :
    MatchesFilters ⟨0, ("WARN").toList, ("hello").toList⟩
        (.mk [] [] 0 0 [.mk ("ERROR").toList [] 0 0 [] []] []) = true ↔
      ∃ opt ∈ [emptyFilters], ∃ mo,
        MergeFilters (.mk ("ERROR").toList [] 0 0 [] []) opt = .ok mo ∧
        MatchesFilters ⟨0, ("WARN").toList, ("hello").toList⟩ mo = true :=
  (C3_or_distribution (.mk ("ERROR").toList [] 0 0 [] []) [] [] 0 0
    emptyFilters [] []
    (.mk [] [] 0 0 [.mk ("ERROR").toList [] 0 0 [] []] [])
    rfl ⟨0, ("WARN").toList, ("hello").toList⟩).1 rfl

/-- C4 (amended): restricted to OR-free filters, `MergeFilters` is commutative
up to observational equivalence (both successful merge orders produce filters
that match exactly the same entries; the stored `level` casing may differ),
and it returns a merge error for every pair whose exact `level` values are
both non-empty and case-insensitively different, provided the extra side has
no OR-list.  Filters carrying OR-lists break both halves of the original
claim (see the counterexample). -/
theorem C4_merge_comm_conflict :
    (∀ (a b m1 m2 : Filters), a.orL = [] → b.orL = [] →
      MergeFilters a b = .ok m1 → MergeFilters b a = .ok m2 →
      ∀ e : LogEntry, MatchesFilters e m1 = MatchesFilters e m2) ∧
    (∀ (base extra : Filters), extra.orL = [] →
      base.level ≠ [] → extra.level ≠ [] →
      equalFold base.level extra.level = false →
      ∃ msg, MergeFilters base extra = .error msg) := by
  constructor
  · exact merge_comm_matches
  · intro base extra hbo hal hbl hne
    obtain ⟨bl, bs2, ba, bb2, bor, bli⟩ := extra
    simp only [Filters.orL_mk] at hbo
    subst hbo
    simp only [Filters.level_mk] at hbl hne
    exact merge_conflict base bl bs2 ba bb2 bli hal hbl hne

/-- C4 counterexample: the pair `{Or:[{}]}` and `{Level:ERROR}` merges
successfully in both orders, yet the two results are not observationally
equivalent (one matches a WARN entry, the other does not), refuting
commutativity for non-conflicting filters; and the pair `{Level:error}` /
`{Level:ERROR}` carries different non-empty exact level values yet merges
without a ConflictError. -/
theorem C4_counterexample :
    MergeFilters (.mk [] [] 0 0 [emptyFilters] []) (.mk ("ERROR").toList [] 0 0 [] [])
      = .ok (.mk ("ERROR").toList [] 0 0 [emptyFilters] []) ∧
    MergeFilters (.mk ("ERROR").toList [] 0 0 [] []) (.mk [] [] 0 0 [emptyFilters] [])
      = .ok (.mk [] [] 0 0 [.mk ("ERROR").toList [] 0 0 [] []] []) ∧
    MatchesFilters ⟨0, ("WARN").toList, ("m").toList⟩
        (.mk ("ERROR").toList [] 0 0 [emptyFilters] []) = true ∧
    MatchesFilters ⟨0, ("WARN").toList, ("m").toList⟩
        (.mk [] [] 0 0 [.mk ("ERROR").toList [] 0 0 [] []] []) = false ∧
    MergeFilters (.mk ("error").toList [] 0 0 [] []) (.mk ("ERROR").toList [] 0 0 [] [])
      = .ok (.mk ("ERROR").toList [] 0 0 [] []) :=
  ⟨rfl, rfl, rfl, rfl, rfl⟩

/-- C4 witness: commutativity at `{Level:ERROR}` merged with `{Search:x}`
(both orders succeed and agree on every entry), and the conflict error at
`{Level:ERROR}` against `{Level:WARN}`. -/
theorem C4_merge_comm_conflict_witness :
    (∀ e : LogEntry,
      MatchesFilters e (.mk ("ERROR").toList ("x").toList 0 0 [] [])
        = MatchesFilters e (.mk ("ERROR").toList ("x").toList 0 0 [] [])) ∧
    (∃ msg, MergeFilters (.mk ("ERROR").toList [] 0 0 [] [])
        (.mk ("WARN").toList [] 0 0 [] []) = .error msg) :=
  ⟨C4_merge_comm_conflict.1 (.mk ("ERROR").toList [] 0 0 [] [])
      (.mk [] ("x").toList 0 0 [] [])
      (.mk ("ERROR").toList ("x").toList 0 0 [] [])
      (.mk ("ERROR").toList ("x").toList 0 0 [] []) rfl rfl rfl rfl,
    C4_merge_comm_conflict.2 (.mk ("ERROR").toList [] 0 0 [] [])
      (.mk ("WARN").toList [] 0 0 [] []) rfl (by decide) (by decide) (by decide)⟩

/-- C6: loading a snapshot whose metadata version differs from the engine's
expected version fails with the version-mismatch error and adopts nothing:
the returned `LoadResult` is empty (no entries, zero stats, no index) and no
partial load occurs. -/
theorem C6_version_mismatch (snap : Snapshot) (replay storePathSet : Bool)
    (storeEntries : List LogEntry) (retention now : Int)
    (h : snap.metadata.version ≠ snapshotVersion) :
    LoadEntriesSnapshot snap replay storePathSet storeEntries retention now
      = (⟨[], ⟨0, 0⟩, none⟩, some ("snapshot version mismatch")) := by
  simp [LoadEntriesSnapshot, h]

/-- C6 witness: a version-2 snapshot is rejected when version 1 is expected. -/
theorem C6_version_mismatch_witness :
    ((⟨⟨2, 0⟩, [⟨5, ("ERROR").toList, ("m").toList⟩],
        ⟨fun _ => [], fun _ => [], []⟩⟩ : Snapshot).metadata.version
      ≠ snapshotVersion) ∧
    LoadEntriesSnapshot
        ⟨⟨2, 0⟩, [⟨5, ("ERROR").toList, ("m").toList⟩],
          ⟨fun _ => [], fun _ => [], []⟩⟩ true true
        [⟨6, ("WARN").toList, ("n").toList⟩] 0 0
      = (⟨[], ⟨0, 0⟩, none⟩, some ("snapshot version mismatch")) :=
  ⟨by decide, C6_version_mismatch _ true true [⟨6, ("WARN").toList, ("n").toList⟩] 0 0
    (by decide)⟩

theorem dayIdx_mono {t s : Int} (h : t ≤ s) : dayIdx t ≤ dayIdx s := by
  have := Int.ediv_le_ediv (a := t) (b := s) (c := 86400) (by norm_num) h
  simpa [dayIdx, Int.ediv] using this

theorem dayLoop_eq_range (n : Nat) : ∀ d e : Int, (e + 1 - d).toNat = n →
    dayLoop d e = (List.range n).map (fun j : Nat => d + (j : Int)) := by
  induction n with
  | zero =>
    intro d e h
    rw [dayLoop]
    have hde : ¬ d ≤ e := by omega
    rw [dif_neg hde]
    rfl
  | succ k ih =>
    intro d e h
    rw [dayLoop]
    have hde : d ≤ e := by omega
    rw [dif_pos hde]
    rw [ih (d + 1) e (by omega)]
    rw [List.range_succ_eq_map]
    simp only [List.map_cons, List.map_map]
    congr 1
    · simp
    · have hfun : ((fun j : Nat => d + (j : Int)) ∘ Nat.succ)
          = fun j : Nat => (d + 1) + (j : Int) := by
        funext j
        simp only [Function.comp]
        push_cast
        ring
      rw [hfun]

/-- C9: `DaysInRange` returns no day keys when both bounds are zero-value;
otherwise it emits exactly one key per UTC calendar day between the earlier
and later of the two effective bounds (a zero bound is replaced by the other,
inverted bounds are swapped), inclusive of both endpoint days and in strictly
ascending order; a span two days apart therefore yields exactly three keys. -/
theorem C9_days_in_range (a b lo hi : Int) (h : ¬(a = 0 ∧ b = 0))
    (hlo : lo = dayIdx (min (if a = 0 then b else a) (if b = 0 then a else b)))
    (hhi : hi = dayIdx (max (if a = 0 then b else a) (if b = 0 then a else b))) :
    DaysInRange 0 0 = [] ∧
    (DaysInRange a b).length = (hi - lo + 1).toNat ∧
    List.Pairwise (· < ·) (DaysInRange a b) ∧
    (∀ k : Int, k ∈ DaysInRange a b ↔ lo ≤ k ∧ k ≤ hi) := by
  have hle : lo ≤ hi := by
    rw [hlo, hhi]
    exact dayIdx_mono (min_le_max)
  have hdef : DaysInRange a b = dayLoop lo hi := by
    simp only [DaysInRange, if_neg h]
    have h1 : (if (if b = 0 then a else b) < (if a = 0 then b else a)
          then (if b = 0 then a else b) else (if a = 0 then b else a))
        = min (if a = 0 then b else a) (if b = 0 then a else b) := by
      split_ifs <;> omega
    have h2 : (if (if b = 0 then a else b) < (if a = 0 then b else a)
          then (if a = 0 then b else a) else (if b = 0 then a else b))
        = max (if a = 0 then b else a) (if b = 0 then a else b) := by
      split_ifs <;> omega
    rw [h1, h2, ← hlo, ← hhi]
  have hrange := dayLoop_eq_range (hi + 1 - lo).toNat lo hi rfl
  refine ⟨rfl, ?_, ?_, ?_⟩
  · rw [hdef, hrange, List.length_map, List.length_range]
    omega
  · rw [hdef, hrange, List.pairwise_map]
    exact (List.pairwise_lt_range _).imp (fun hab => by omega)
  · intro k
    rw [hdef, hrange]
    simp only [List.mem_map, List.mem_range]
    constructor
    · rintro ⟨j, hj, hk⟩
      omega
    · rintro ⟨h1, h2⟩
      exact ⟨(k - lo).toNat, by omega, by omega⟩

/-- C9 witness: a span from day 10 to day 12 (two days apart) yields exactly
three keys, ascending and inclusive of both endpoints. -/
theorem C9_days_in_range_witness :
    DaysInRange 0 0 = [] ∧
    (DaysInRange (86400 * 10 + 5) (86400 * 12 + 3)).length
      = ((12 : Int) - 10 + 1).toNat ∧
    List.Pairwise (· < ·) (DaysInRange (86400 * 10 + 5) (86400 * 12 + 3)) ∧
    (∀ k : Int, k ∈ DaysInRange (86400 * 10 + 5) (86400 * 12 + 3)
      ↔ 10 ≤ k ∧ k ≤ 12) :=
  C9_days_in_range (86400 * 10 + 5) (86400 * 12 + 3) 10 12
    (by decide) (by decide) (by decide)

theorem tokenizeGo_plain :
    ∀ (s : Str) (acc : List Str) (b rest : Str),
      (∀ c ∈ s, ¬(c = spaceChar ∨ c = tabChar ∨ c = dquoteChar ∨ c = squoteChar)) →
      tokenizeGo acc b none (s ++ rest) = tokenizeGo acc (b ++ s) none rest := by
  intro s
  induction s with
  | nil =>
    intro acc b rest _
    simp
  | cons c t ih =>
    intro acc b rest hs
    have hc := hs c (List.mem_cons_self _ _)
    push_neg at hc
    obtain ⟨h1, h2, h3, h4⟩ := hc
    rw [List.cons_append, tokenizeGo]
    rw [if_neg (by tauto : ¬(c = dquoteChar ∨ c = squoteChar))]
    rw [if_neg (by tauto : ¬(c = spaceChar ∨ c = tabChar))]
    rw [ih acc (b ++ [c]) rest (fun x hx => hs x (List.mem_cons_of_mem _ hx))]
    simp

theorem tokenizeGo_quoted (q : Char) :
    ∀ (s : Str) (acc : List Str) (b rest : Str),
      (∀ c ∈ s, ¬ c = q) →
      tokenizeGo acc b (some q) (s ++ (q :: rest)) = tokenizeGo acc (b ++ s) none rest := by
  intro s
  induction s with
  | nil =>
    intro acc b rest _
    rw [List.nil_append, tokenizeGo, if_pos rfl]
    simp
  | cons c t ih =>
    intro acc b rest hs
    have hc := hs c (List.mem_cons_self _ _)
    rw [List.cons_append, tokenizeGo, if_neg hc]
    rw [ih acc (b ++ [c]) rest (fun x hx => hs x (List.mem_cons_of_mem _ hx))]
    simp

/-- C8 (amended): tokenizing treats quoted spaces as literal characters of a
single token, and unquoted commas never split a token (tokenize only splits
on unquoted spaces and tabs); a token followed by `in` and one further token
is re-joined into one `key in value` token, so an `in (...)` list with no
internal unquoted spaces survives intact — but an unquoted space inside the
parenthesized list does split it (see the counterexample), so embedded
spaces require quoting.  Parsing an `in (...)` list ignores items that are
empty after trimming, and a list that is empty after trimming is a parse
error. -/
theorem C8_tokenize_quotes_inlists :
    (∀ pre s : Str,
      (∀ c ∈ pre, ¬(c = spaceChar ∨ c = tabChar ∨ c = dquoteChar ∨ c = squoteChar)) →
      (∀ c ∈ s, ¬ c = dquoteChar) →
      tokenize (pre ++ [dquoteChar] ++ s ++ [dquoteChar])
        = .ok (if pre ++ s = [] then [] else [pre ++ s])) ∧
    (∀ s : Str, s ≠ [] →
      (∀ c ∈ s, ¬(c = spaceChar ∨ c = tabChar ∨ c = dquoteChar ∨ c = squoteChar)) →
      tokenize s = .ok [s]) ∧
    (∀ k v : Str, equalFold k orWord = false →
      splitOnOR [k, inWord, v]
        = [[k ++ [spaceChar] ++ inWord ++ [spaceChar] ++ v]]) ∧
    (∀ (v : Str) (out : List Str), parseInList v = .ok out →
      out ≠ [] ∧ ∀ item ∈ out, item ≠ []) ∧
    (∀ v : Str,
      (∀ p ∈ (if [lparenChar].isPrefixOf (trimSpace v) ∧
            [rparenChar].isSuffixOf (trimSpace v)
          then ((trimSpace v).drop 1).dropLast else trimSpace v).splitOn commaChar,
        trimQuotes (trimSpace p) = []) →
      parseInList v = .error ("empty in() list")) ∧
    parseInList (("(a,,b)").toList) = .ok [("a").toList, ("b").toList] ∧
    parseInList (("()").toList) = .error ("empty in() list") := by
  refine ⟨?_, ?_, ?_, ?_, ?_, rfl, rfl⟩
  · intro pre s hpre hss
    have hassoc : pre ++ [dquoteChar] ++ s ++ [dquoteChar]
        = pre ++ (dquoteChar :: (s ++ (dquoteChar :: []))) := by simp
    rw [tokenize, hassoc, tokenizeGo_plain pre [] [] _ hpre]
    rw [tokenizeGo, if_pos (Or.inl rfl)]
    rw [tokenizeGo_quoted dquoteChar s [] ([] ++ pre) [] hss]
    rw [tokenizeGo]
    simp only [Option.isSome_none, Bool.false_eq_true, if_false, List.nil_append]
    by_cases hempty : pre ++ s = []
    · simp [hempty]
    · have hlen : (pre ++ s).length > 0 := by
        cases hpe : pre ++ s with
        | nil => exact absurd hpe hempty
        | cons x t => simp
      rw [if_pos hlen, if_neg hempty]
  · intro s hne hs
    have := tokenizeGo_plain s [] [] [] hs
    rw [tokenize, ← List.append_nil s, this, tokenizeGo]
    have hlen : (([] : Str) ++ s).length > 0 := by
      cases hpe : s with
      | nil => exact absurd hpe hne
      | cons x t => simp
    simp only [Option.isSome_none, Bool.false_eq_true, if_false]
    rw [if_pos hlen]
    simp
  · intro k v hk
    have h2 : equalFold inWord inWord = true := rfl
    simp [splitOnOR, splitOnORGo, hk, h2]
  · intro v out h
    simp only [parseInList] at h
    split at h <;> split at h <;>
      first
        | exact Except.noConfusion h
        | (rename_i hlen
           rw [Except.ok.injEq] at h
           subst h
           refine ⟨?_, ?_⟩
           · intro hc
             rw [hc] at hlen
             simp at hlen
           · intro item hitem
             simpa using (List.mem_filter.mp hitem).2)
  · intro v hv
    simp only [parseInList]
    have hnil : (((if [lparenChar].isPrefixOf (trimSpace v) ∧
            [rparenChar].isSuffixOf (trimSpace v)
          then ((trimSpace v).drop 1).dropLast else trimSpace v).splitOn
          commaChar).map (fun p => trimQuotes (trimSpace p))).filter
          (fun item => decide (¬ item = [])) = [] := by
      rw [List.filter_eq_nil_iff]
      intro a ha
      rw [List.mem_map] at ha
      obtain ⟨p, hp, rfl⟩ := ha
      simp [hv p hp]
    rw [hnil]
    simp

/-- C8 counterexample: the query `level in (ERROR, WARN)` has an unquoted
space inside the parenthesized list; tokenizing splits the list value into
two tokens (`(ERROR,` and `WARN)`), so the list is not kept whole and the
whole query fails to parse. -/
theorem C8_counterexample :
    tokenize (("level in (ERROR, WARN)").toList)
      = .ok [("level").toList, ("in").toList, ("(ERROR,").toList, ("WARN)").toList] ∧
    Parse 0 (fun _ => none) (fun _ => none) (("level in (ERROR, WARN)").toList)
      = .error ("expected key=value or key~value") :=
  ⟨rfl, rfl⟩

/-- C8 witness: a quoted value with a space stays one token, and an `in` list
token is re-joined. -/
theorem C8_tokenize_quotes_inlists_witness :
    tokenize (("search=").toList ++ [dquoteChar] ++ ("a b").toList ++ [dquoteChar])
      = .ok (if ("search=").toList ++ ("a b").toList = [] then []
          else [("search=").toList ++ ("a b").toList]) ∧
    splitOnOR [("level").toList, inWord, ("(E,W)").toList]
      = [[("level").toList ++ [spaceChar] ++ inWord ++ [spaceChar]
          ++ ("(E,W)").toList]] :=
  ⟨C8_tokenize_quotes_inlists.1 (("search=").toList) (("a b").toList)
      (by decide) (by decide),
    C8_tokenize_quotes_inlists.2.2.1 (("level").toList) (("(E,W)").toList)
      (by decide)⟩
